import Mathlib

/-!
# Repository lifecycle coordinator (repo/repository.go)

A shallow embedding of `Repository.Close`, `Repository.Flush`,
`Repository.Refresh` and `Repository.RefreshPeriodically`.

The four collaborators (block manager, object manager, manifest manager and
storage) are external to the file: they are embedded as arbitrary functions
over an arbitrary collaborator state `σ`. Every collaborator invocation and
every log line is appended to a trace, so the order and number of calls made
by the coordinator can be stated.
-/

namespace Repo

/-! ## Data model -/

/-- Snapshot of a `context.Context` at the moment it is handed to a callee:
`cancelled` tells whether its `Done()` channel is closed. -/
structure Context where
  cancelled : Bool
  deriving DecidableEq, Repr

/-- A non-nil Go `error` value. `collab` is a value produced by a collaborator,
`errorf` is the value built by `fmt.Errorf` from a format without `%w`. -/
inductive GoError where
  | collab (id : Nat) (msg : String)
  | errorf (msg : String)
  deriving DecidableEq, Repr

/-- The `Error()` method of an error value. -/
def GoError.Error : GoError → String
  | .collab _ msg => msg
  | .errorf msg => msg

/-- The collaborator operations the coordinator can invoke. -/
inductive Op where
  | ManifestsFlush
  | ManifestsRefresh
  | ObjectsClose
  | ObjectsFlush
  | BlocksFlush
  | BlocksRefresh
  | StorageClose
  deriving DecidableEq, Repr

/-- Observable events: a collaborator call, a `log.Printf` line, or a
`log.Warn().Msgf` line. -/
inductive Event where
  | call (op : Op)
  | logPrintf (msg : String)
  | logWarn (msg : String)
  deriving DecidableEq, Repr

/-- A collaborator method returning `error`: `none` is Go's `nil`. -/
abbrev Method (σ : Type) := Context → σ → Option GoError × σ

/-- The part of `*block.Manager` used by the coordinator. -/
structure BlockManager (σ : Type) where
  Flush : Method σ
  Refresh : Context → σ → (Bool × Option GoError) × σ

/-- The part of `*object.Manager` used by the coordinator. -/
structure ObjectManager (σ : Type) where
  Close : Method σ
  Flush : Method σ

/-- The part of `storage.Storage` used by the coordinator. -/
structure StorageHandle (σ : Type) where
  Close : Method σ

/-- The part of `*manifest.Manager` used by the coordinator. -/
structure ManifestManager (σ : Type) where
  Flush : Method σ
  Refresh : Method σ

/-- The `Repository` struct, restricted to the fields its methods read. -/
structure Repository (σ : Type) where
  Blocks : BlockManager σ
  Objects : ObjectManager σ
  Storage : StorageHandle σ
  Manifests : ManifestManager σ

/-- Collaborator state together with the trace of events observed so far. -/
structure World (σ : Type) where
  state : σ
  trace : List Event

/-- Invoke a collaborator method: run it on the collaborator state and record
the call at the end of the trace. -/
def invoke {σ α : Type} (op : Op) (f : Context → σ → α × σ) (ctx : Context)
    (w : World σ) : α × World σ :=
  ((f ctx w.state).1, ⟨(f ctx w.state).2, w.trace ++ [Event.call op]⟩)

/-- Append a log event to the trace. -/
def emit {σ : Type} (e : Event) (w : World σ) : World σ :=
  ⟨w.state, w.trace ++ [e]⟩

/-! ## Operations -/

/-- Embedding of `func (r *Repository) Close(ctx context.Context) error`. -/
def Repository.Close {σ : Type} (r : Repository σ) (ctx : Context) (w : World σ) :
    Option GoError × World σ :=
  match invoke Op.ManifestsFlush r.Manifests.Flush ctx w with
  | (some err, w1) => (some err, w1)
  | (none, w1) =>
    match invoke Op.ObjectsClose r.Objects.Close ctx w1 with
    | (some err, w2) => (some err, w2)
    | (none, w2) =>
      match invoke Op.BlocksFlush r.Blocks.Flush ctx w2 with
      | (some err, w3) => (some err, w3)
      | (none, w3) =>
        match invoke Op.StorageClose r.Storage.Close ctx w3 with
        | (some err, w4) => (some err, w4)
        | (none, w4) => (none, w4)

/-- Embedding of `func (r *Repository) Flush(ctx context.Context) error`. -/
def Repository.Flush {σ : Type} (r : Repository σ) (ctx : Context) (w : World σ) :
    Option GoError × World σ :=
  match invoke Op.ManifestsFlush r.Manifests.Flush ctx w with
  | (some err, w1) => (some err, w1)
  | (none, w1) =>
    match invoke Op.ObjectsFlush r.Objects.Flush ctx w1 with
    | (some err, w2) => (some err, w2)
    | (none, w2) => invoke Op.BlocksFlush r.Blocks.Flush ctx w2

/-- Embedding of `func (r *Repository) Refresh(ctx context.Context) error`.
`fmt.Errorf("...: %v", err)` renders `err` through its `Error()` method. -/
def Repository.Refresh {σ : Type} (r : Repository σ) (ctx : Context) (w : World σ) :
    Option GoError × World σ :=
  match invoke Op.BlocksRefresh r.Blocks.Refresh ctx w with
  | ((_, some err), w1) =>
    (some (GoError.errorf ("error refreshing block index: " ++ err.Error)), w1)
  | ((false, none), w1) => (none, w1)
  | ((true, none), w1) =>
    let w2 := emit (Event.logPrintf "block index refreshed") w1
    match invoke Op.ManifestsRefresh r.Manifests.Refresh ctx w2 with
    | (some err, w3) =>
      (some (GoError.errorf ("error reloading manifests: " ++ err.Error)), w3)
    | (none, w3) => (none, emit (Event.logPrintf "manifests refreshed") w3)

/-! ## The periodic loop -/

/-- What the `select` of one loop iteration sees: whether `ctx.Done()` is
closed, whether the channel of `time.After(interval)` holds a value, and the
runtime's choice among the ready cases (Go picks one ready case by a uniform
pseudo-random selection; `pickDone` is that choice when both are ready). -/
structure SelectReady where
  doneReady : Bool
  timerReady : Bool
  pickDone : Bool
  deriving DecidableEq, Repr

/-- The two communication cases of the `select`. -/
inductive SelectCase where
  | done
  | timer
  deriving DecidableEq, Repr

/-- The case a Go `select` without `default` proceeds with; `none` while no
case is ready (the statement stays blocked). -/
def selectCase (s : SelectReady) : Option SelectCase :=
  match s.doneReady, s.timerReady with
  | true, true => if s.pickDone then some SelectCase.done else some SelectCase.timer
  | true, false => some SelectCase.done
  | false, true => some SelectCase.timer
  | false, false => none

/-- Control state of `RefreshPeriodically`: inside the `for` loop, or returned. -/
inductive LoopState where
  | waiting
  | terminated
  deriving DecidableEq, Repr

/-- One iteration of the `for { select { ... } }` loop of
`RefreshPeriodically`. A returned function takes no further step. -/
def Repository.loopStep {σ : Type} (r : Repository σ) (ev : SelectReady) :
    LoopState × World σ → LoopState × World σ
  | (LoopState.terminated, w) => (LoopState.terminated, w)
  | (LoopState.waiting, w) =>
    match selectCase ev with
    | none => (LoopState.waiting, w)
    | some SelectCase.done => (LoopState.terminated, w)
    | some SelectCase.timer =>
      match r.Refresh ⟨ev.doneReady⟩ w with
      | (some err, w1) =>
        (LoopState.waiting,
          emit (Event.logWarn ("error refreshing repository: " ++ err.Error)) w1)
      | (none, w1) => (LoopState.waiting, w1)

/-- Embedding of
`func (r *Repository) RefreshPeriodically(ctx context.Context, interval time.Duration)`:
the loop run against the sequence of situations its `select` meets. -/
def Repository.RefreshPeriodically {σ : Type} (r : Repository σ)
    (evs : List SelectReady) (w : World σ) : LoopState × World σ :=
  evs.foldl (fun st ev => r.loopStep ev st) (LoopState.waiting, w)

/-! ## Vocabulary for stating the sequencing claims -/

/-- The collaborator calls of `Close`, in source order. -/
def closeOps : List Op :=
  [Op.ManifestsFlush, Op.ObjectsClose, Op.BlocksFlush, Op.StorageClose]

/-- The collaborator methods behind `closeOps`. -/
def Repository.closeMethods {σ : Type} (r : Repository σ) : List (Method σ) :=
  [r.Manifests.Flush, r.Objects.Close, r.Blocks.Flush, r.Storage.Close]

/-- The collaborator calls of `Flush`, in source order. -/
def flushOps : List Op :=
  [Op.ManifestsFlush, Op.ObjectsFlush, Op.BlocksFlush]

/-- The collaborator methods behind `flushOps`. -/
def Repository.flushMethods {σ : Type} (r : Repository σ) : List (Method σ) :=
  [r.Manifests.Flush, r.Objects.Flush, r.Blocks.Flush]

/-- Collaborator state reached after running the first `n` methods of a list
one after the other (results ignored). -/
def stateAfter {σ : Type} (ms : List (Method σ)) (ctx : Context) (s : σ) : Nat → σ
  | 0 => s
  | n + 1 =>
    match ms.get? n with
    | some f => (f ctx (stateAfter ms ctx s n)).2
    | none => stateAfter ms ctx s n

/-- Result of the method at position `k` when it runs after the `k` methods
before it. -/
def outcomeAt {σ : Type} (ms : List (Method σ)) (ctx : Context) (s : σ) (k : Nat) :
    Option GoError :=
  match ms.get? k with
  | some f => (f ctx (stateAfter ms ctx s k)).1
  | none => none

/-- The collaborator calls recorded in a trace, log lines dropped. -/
def callsOf (t : List Event) : List Op :=
  t.filterMap (fun e => match e with
    | Event.call op => some op
    | _ => none)

/-- What the claims about the loop call one refresh: a single `Refresh` call on
the given world, followed by one warning line when that call returned an
error. Stated apart from `loopStep`, to compare the loop against it. -/
def Repository.refreshWithWarning {σ : Type} (r : Repository σ) (ctx : Context)
    (w : World σ) : World σ :=
  match r.Refresh ctx w with
  | (some err, w1) => emit (Event.logWarn ("error refreshing repository: " ++ err.Error)) w1
  | (none, w1) => w1

/-! ## Concrete collaborators used to instantiate the theorems -/

/-- A method that always succeeds. -/
def okMethod : Method Unit := fun _ s => (none, s)

/-- A method that always fails with the given error. -/
def failMethod (e : GoError) : Method Unit := fun _ s => (some e, s)

/-- A repository all of whose collaborators succeed; `Blocks.Refresh` reports
`changed`. -/
def okRepo (changed : Bool) : Repository Unit where
  Blocks := ⟨okMethod, fun _ s => ((changed, none), s)⟩
  Objects := ⟨okMethod, okMethod⟩
  Storage := ⟨okMethod⟩
  Manifests := ⟨okMethod, okMethod⟩

/-- A repository whose `Blocks.Refresh` always fails with `e`. -/
def blockFailRepo (e : GoError) : Repository Unit where
  Blocks := ⟨okMethod, fun _ s => ((false, some e), s)⟩
  Objects := ⟨okMethod, okMethod⟩
  Storage := ⟨okMethod⟩
  Manifests := ⟨okMethod, okMethod⟩

/-- A repository whose `Manifests.Refresh` always fails with `e` after a
successful, changed `Blocks.Refresh`. -/
def manifestFailRepo (e : GoError) : Repository Unit where
  Blocks := ⟨okMethod, fun _ s => ((true, none), s)⟩
  Objects := ⟨okMethod, okMethod⟩
  Storage := ⟨okMethod⟩
  Manifests := ⟨okMethod, failMethod e⟩

/-- A repository whose `Blocks.Flush` fails with `e`. -/
def blocksFlushFailRepo (e : GoError) : Repository Unit where
  Blocks := ⟨failMethod e, fun _ s => ((false, none), s)⟩
  Objects := ⟨okMethod, okMethod⟩
  Storage := ⟨okMethod⟩
  Manifests := ⟨okMethod, okMethod⟩

/-- The empty starting world over `Unit`. -/
def w0 : World Unit := ⟨(), []⟩

/-! ## Shutdown sequencing -/

/-- C1: when the four collaborator calls of `Close` all succeed, `Close`
returns nil and appends to the trace exactly the four calls Manifests.Flush,
Objects.Close, Blocks.Flush, Storage.Close, in that order and nothing else. -/
theorem Close_success_trace {σ : Type} (r : Repository σ) (ctx : Context) (w : World σ)
    (s1 s2 s3 s4 : σ)
    (h1 : r.Manifests.Flush ctx w.state = (none, s1))
    (h2 : r.Objects.Close ctx s1 = (none, s2))
    (h3 : r.Blocks.Flush ctx s2 = (none, s3))
    (h4 : r.Storage.Close ctx s3 = (none, s4)) :
    r.Close ctx w =
      (none, ⟨s4, w.trace ++ [Event.call Op.ManifestsFlush, Event.call Op.ObjectsClose,
        Event.call Op.BlocksFlush, Event.call Op.StorageClose]⟩) := by
  simp [Repository.Close, invoke, h1, h2, h3, h4]

/-- Witness for C1: the all-succeeding repository closes cleanly. -/
theorem Close_success_trace_witness :
    (okRepo false).Close ⟨false⟩ w0 =
      (none, ⟨(), w0.trace ++ [Event.call Op.ManifestsFlush, Event.call Op.ObjectsClose,
        Event.call Op.BlocksFlush, Event.call Op.StorageClose]⟩) :=
  Close_success_trace (okRepo false) ⟨false⟩ w0 () () () () rfl rfl rfl rfl

/-- C2: for every position `k` (0-based, `k < 4`) and error `e`, if the calls
before position `k` of `Close` succeed and the call at position `k` fails with
`e`, then `Close` returns exactly `e`, the trace grows by exactly the first
`k + 1` calls of Manifests.Flush, Objects.Close, Blocks.Flush, Storage.Close,
and no later call is made. -/
theorem Close_fail_fast {σ : Type} (r : Repository σ) (ctx : Context) (w : World σ)
    (k : Nat) (hk : k < 4) (e : GoError)
    (hpre : ∀ i, i < k → outcomeAt r.closeMethods ctx w.state i = none)
    (hfail : outcomeAt r.closeMethods ctx w.state k = some e) :
    r.Close ctx w =
      (some e, ⟨stateAfter r.closeMethods ctx w.state (k + 1),
        w.trace ++ (closeOps.take (k + 1)).map Event.call⟩) := by
  interval_cases k
  · simp [outcomeAt, stateAfter, Repository.closeMethods] at hfail
    simp [Repository.Close, invoke, hfail, stateAfter, Repository.closeMethods, closeOps]
  · have h0 := hpre 0 (by decide)
    simp [outcomeAt, stateAfter, Repository.closeMethods] at hfail h0
    simp [Repository.Close, invoke, hfail, h0, stateAfter, Repository.closeMethods, closeOps]
  · have h0 := hpre 0 (by decide)
    have h1 := hpre 1 (by decide)
    simp [outcomeAt, stateAfter, Repository.closeMethods] at hfail h0 h1
    simp [Repository.Close, invoke, hfail, h0, h1, stateAfter, Repository.closeMethods,
      closeOps]
  · have h0 := hpre 0 (by decide)
    have h1 := hpre 1 (by decide)
    have h2 := hpre 2 (by decide)
    simp [outcomeAt, stateAfter, Repository.closeMethods] at hfail h0 h1 h2
    simp [Repository.Close, invoke, hfail, h0, h1, h2, stateAfter, Repository.closeMethods,
      closeOps]

/-- Witness for C2: a failing Blocks.Flush (position 2) stops `Close` before
Storage.Close and its error is returned as is. -/
theorem Close_fail_fast_witness :
    (blocksFlushFailRepo (GoError.collab 7 "disk full")).Close ⟨false⟩ w0 =
      (some (GoError.collab 7 "disk full"),
        ⟨(), [Event.call Op.ManifestsFlush, Event.call Op.ObjectsClose,
          Event.call Op.BlocksFlush]⟩) :=
  Close_fail_fast (blocksFlushFailRepo (GoError.collab 7 "disk full")) ⟨false⟩ w0 2
    (by decide) (GoError.collab 7 "disk full")
    (by
      intro i hi
      interval_cases i <;> rfl)
    rfl

/-! ## Durability sync -/

/-- C3: for every behaviour of the collaborators there is a position `k < 3`
such that the calls before `k` succeed, `k` is the first failing call unless
all succeed (then `k` is the last position), `Flush` returns the result of call
`k` unchanged (nil when all three succeed), the trace grows by exactly the first
`k + 1` calls of Manifests.Flush, Objects.Flush, Blocks.Flush, and neither
Objects.Close nor Storage.Close is among them. -/
theorem Flush_calls_prefix {σ : Type} (r : Repository σ) (ctx : Context) (w : World σ) :
    ∃ k, k < 3 ∧
      (∀ i, i < k → outcomeAt r.flushMethods ctx w.state i = none) ∧
      (k < 2 → outcomeAt r.flushMethods ctx w.state k ≠ none) ∧
      r.Flush ctx w =
        (outcomeAt r.flushMethods ctx w.state k,
          ⟨stateAfter r.flushMethods ctx w.state (k + 1),
            w.trace ++ (flushOps.take (k + 1)).map Event.call⟩) ∧
      Op.ObjectsClose ∉ flushOps.take (k + 1) ∧
      Op.StorageClose ∉ flushOps.take (k + 1) := by
  rcases h0 : r.Manifests.Flush ctx w.state with ⟨_ | e0, s1⟩
  · rcases h1 : r.Objects.Flush ctx s1 with ⟨_ | e1, s2⟩
    · refine ⟨2, by decide, ?_, ?_, ?_, by decide, by decide⟩
      · intro i hi
        interval_cases i <;>
          simp [outcomeAt, stateAfter, Repository.flushMethods, h0, h1]
      · intro h
        exact absurd h (by decide)
      · simp [Repository.Flush, invoke, outcomeAt, stateAfter, Repository.flushMethods,
          flushOps, h0, h1]
    · refine ⟨1, by decide, ?_, ?_, ?_, by decide, by decide⟩
      · intro i hi
        interval_cases i
        simp [outcomeAt, stateAfter, Repository.flushMethods, h0]
      · intro _
        simp [outcomeAt, stateAfter, Repository.flushMethods, h0, h1]
      · simp [Repository.Flush, invoke, outcomeAt, stateAfter, Repository.flushMethods,
          flushOps, h0, h1]
  · refine ⟨0, by decide, ?_, ?_, ?_, by decide, by decide⟩
    · intro i hi
      exact absurd hi (Nat.not_lt_zero i)
    · intro _
      simp [outcomeAt, stateAfter, Repository.flushMethods, h0]
    · simp [Repository.Flush, invoke, outcomeAt, stateAfter, Repository.flushMethods,
        flushOps, h0]

/-- C9: when the three collaborator flushes succeed in each of two successive
`Flush` calls, both calls return nil, each appends the same pattern
Manifests.Flush, Objects.Flush, Blocks.Flush, and the combined trace is that
pattern twice. -/
theorem Flush_twice_same_pattern {σ : Type} (r : Repository σ) (ctx1 ctx2 : Context)
    (w : World σ) (s1 s2 s3 s4 s5 s6 : σ)
    (h1 : r.Manifests.Flush ctx1 w.state = (none, s1))
    (h2 : r.Objects.Flush ctx1 s1 = (none, s2))
    (h3 : r.Blocks.Flush ctx1 s2 = (none, s3))
    (h4 : r.Manifests.Flush ctx2 s3 = (none, s4))
    (h5 : r.Objects.Flush ctx2 s4 = (none, s5))
    (h6 : r.Blocks.Flush ctx2 s5 = (none, s6)) :
    r.Flush ctx1 w = (none, ⟨s3, w.trace ++ flushOps.map Event.call⟩) ∧
    r.Flush ctx2 (r.Flush ctx1 w).2 =
      (none, ⟨s6, (r.Flush ctx1 w).2.trace ++ flushOps.map Event.call⟩) ∧
    (r.Flush ctx2 (r.Flush ctx1 w).2).2.trace =
      w.trace ++ (flushOps.map Event.call ++ flushOps.map Event.call) := by
  have hfirst : r.Flush ctx1 w = (none, ⟨s3, w.trace ++ flushOps.map Event.call⟩) := by
    simp [Repository.Flush, invoke, flushOps, h1, h2, h3]
  refine ⟨hfirst, ?_, ?_⟩ <;> rw [hfirst] <;>
    simp [Repository.Flush, invoke, flushOps, h4, h5, h6]

/-- Witness for C9: flushing the all-succeeding repository twice. -/
theorem Flush_twice_same_pattern_witness :
    (okRepo false).Flush ⟨false⟩ w0 = (none, ⟨(), w0.trace ++ flushOps.map Event.call⟩) ∧
    (okRepo false).Flush ⟨false⟩ ((okRepo false).Flush ⟨false⟩ w0).2 =
      (none, ⟨(), ((okRepo false).Flush ⟨false⟩ w0).2.trace ++ flushOps.map Event.call⟩) ∧
    ((okRepo false).Flush ⟨false⟩ ((okRepo false).Flush ⟨false⟩ w0).2).2.trace =
      w0.trace ++ (flushOps.map Event.call ++ flushOps.map Event.call) :=
  Flush_twice_same_pattern (okRepo false) ⟨false⟩ ⟨false⟩ w0 () () () () () ()
    rfl rfl rfl rfl rfl rfl

/-! ## Visibility refresh -/

/-- C4: for every outcome of Blocks.Refresh, the events appended by `Refresh`
start with the single Blocks.Refresh call, no second Blocks.Refresh follows,
and the events after it contain Manifests.Refresh exactly once when
Blocks.Refresh succeeded with `changed = true` and not at all otherwise. -/
theorem Refresh_manifest_gate {σ : Type} (r : Repository σ) (ctx : Context) (w : World σ) :
    ∃ post, (r.Refresh ctx w).2.trace = w.trace ++ Event.call Op.BlocksRefresh :: post ∧
      Event.call Op.BlocksRefresh ∉ post ∧
      post.count (Event.call Op.ManifestsRefresh) =
        if (r.Blocks.Refresh ctx w.state).1.2 = none ∧
            (r.Blocks.Refresh ctx w.state).1.1 = true then 1 else 0 := by
  rcases hb : r.Blocks.Refresh ctx w.state with ⟨⟨changed, _ | e⟩, s1⟩
  · cases changed
    · exact ⟨[], by simp [Repository.Refresh, invoke, hb]⟩
    · rcases hm : r.Manifests.Refresh ctx s1 with ⟨_ | e, s2⟩
      · refine ⟨[Event.logPrintf "block index refreshed", Event.call Op.ManifestsRefresh,
          Event.logPrintf "manifests refreshed"], ?_, by decide, by simp⟩
        simp [Repository.Refresh, invoke, emit, hb, hm]
      · refine ⟨[Event.logPrintf "block index refreshed", Event.call Op.ManifestsRefresh],
          ?_, by decide, by simp⟩
        simp [Repository.Refresh, invoke, emit, hb, hm]
  · exact ⟨[], by simp [Repository.Refresh, invoke, hb]⟩

/-- C10: `Refresh` returns nil exactly when Blocks.Refresh succeeded and either
reported `changed = false` or Manifests.Refresh succeeded too. When
Blocks.Refresh fails, the result is the block-index error and the trace ends
with the Blocks.Refresh call; when Manifests.Refresh fails, the result is the
manifest error and the trace ends with the Manifests.Refresh call. -/
theorem Refresh_nil_iff {σ : Type} (r : Repository σ) (ctx : Context) (w : World σ) :
    ((r.Refresh ctx w).1 = none ↔
      (r.Blocks.Refresh ctx w.state).1.2 = none ∧
        ((r.Blocks.Refresh ctx w.state).1.1 = false ∨
          (r.Manifests.Refresh ctx (r.Blocks.Refresh ctx w.state).2).1 = none)) ∧
    (∀ e, (r.Blocks.Refresh ctx w.state).1.2 = some e →
      r.Refresh ctx w =
        (some (GoError.errorf ("error refreshing block index: " ++ e.Error)),
          ⟨(r.Blocks.Refresh ctx w.state).2, w.trace ++ [Event.call Op.BlocksRefresh]⟩)) ∧
    (∀ e, (r.Blocks.Refresh ctx w.state).1 = (true, none) →
      (r.Manifests.Refresh ctx (r.Blocks.Refresh ctx w.state).2).1 = some e →
      r.Refresh ctx w =
        (some (GoError.errorf ("error reloading manifests: " ++ e.Error)),
          ⟨(r.Manifests.Refresh ctx (r.Blocks.Refresh ctx w.state).2).2,
            w.trace ++ [Event.call Op.BlocksRefresh,
              Event.logPrintf "block index refreshed",
              Event.call Op.ManifestsRefresh]⟩)) := by
  rcases hb : r.Blocks.Refresh ctx w.state with ⟨⟨changed, _ | e⟩, s1⟩
  · cases changed
    · simp [Repository.Refresh, invoke, hb]
    · rcases hm : r.Manifests.Refresh ctx s1 with ⟨_ | e, s2⟩ <;>
        simp [Repository.Refresh, invoke, emit, hb, hm]
  · simp [Repository.Refresh, invoke, hb]

/-- The two context strings already differ at their ninth character. -/
theorem refresh_messages_ne (a b : String) :
    "error refreshing block index: " ++ a ≠ "error reloading manifests: " ++ b := by
  intro h
  have h2 := congrArg String.data h
  simp only [String.data_append] at h2
  have h3 := congrArg (fun l => l.get? 8) h2
  simp at h3

/-- C8: a Blocks.Refresh failure `e` makes `Refresh` return an error whose
message is "error refreshing block index: " followed by the message of `e`; a
Manifests.Refresh failure `e` makes it return an error whose message is
"error reloading manifests: " followed by the message of `e`; and the message
returned for any block failure differs from the message returned for any
manifest failure. -/
theorem Refresh_error_messages :
    (∀ (σ : Type) (r : Repository σ) (ctx : Context) (w : World σ) (e : GoError),
      (r.Blocks.Refresh ctx w.state).1.2 = some e →
      (r.Refresh ctx w).1.map GoError.Error =
        some ("error refreshing block index: " ++ e.Error)) ∧
    (∀ (σ : Type) (r : Repository σ) (ctx : Context) (w : World σ) (e : GoError),
      (r.Blocks.Refresh ctx w.state).1 = (true, none) →
      (r.Manifests.Refresh ctx (r.Blocks.Refresh ctx w.state).2).1 = some e →
      (r.Refresh ctx w).1.map GoError.Error =
        some ("error reloading manifests: " ++ e.Error)) ∧
    (∀ (σ τ : Type) (r1 : Repository σ) (r2 : Repository τ) (ctx1 ctx2 : Context)
      (w1 : World σ) (w2 : World τ) (e1 e2 : GoError),
      (r1.Blocks.Refresh ctx1 w1.state).1.2 = some e1 →
      (r2.Blocks.Refresh ctx2 w2.state).1 = (true, none) →
      (r2.Manifests.Refresh ctx2 (r2.Blocks.Refresh ctx2 w2.state).2).1 = some e2 →
      (r1.Refresh ctx1 w1).1.map GoError.Error ≠
        (r2.Refresh ctx2 w2).1.map GoError.Error) := by
  have hblock : ∀ (σ : Type) (r : Repository σ) (ctx : Context) (w : World σ)
      (e : GoError), (r.Blocks.Refresh ctx w.state).1.2 = some e →
      (r.Refresh ctx w).1.map GoError.Error =
        some ("error refreshing block index: " ++ e.Error) := by
    intro σ r ctx w e h
    rcases hb : r.Blocks.Refresh ctx w.state with ⟨⟨changed, _ | e0⟩, s1⟩
    · simp [hb] at h
    · simp [hb] at h
      simp [Repository.Refresh, invoke, hb, h, GoError.Error]
  have hman : ∀ (σ : Type) (r : Repository σ) (ctx : Context) (w : World σ)
      (e : GoError), (r.Blocks.Refresh ctx w.state).1 = (true, none) →
      (r.Manifests.Refresh ctx (r.Blocks.Refresh ctx w.state).2).1 = some e →
      (r.Refresh ctx w).1.map GoError.Error =
        some ("error reloading manifests: " ++ e.Error) := by
    intro σ r ctx w e h hm
    rcases hb : r.Blocks.Refresh ctx w.state with ⟨⟨changed, err⟩, s1⟩
    simp [hb] at h hm
    rcases h with ⟨rfl, rfl⟩
    rcases hm2 : r.Manifests.Refresh ctx s1 with ⟨_ | e0, s2⟩
    · simp [hm2] at hm
    · simp [hm2] at hm
      simp [Repository.Refresh, invoke, emit, hb, hm2, hm, GoError.Error]
  refine ⟨hblock, hman, ?_⟩
  intro σ τ r1 r2 ctx1 ctx2 w1 w2 e1 e2 h1 h2 h3
  rw [hblock σ r1 ctx1 w1 e1 h1, hman τ r2 ctx2 w2 e2 h2 h3]
  intro h
  exact refresh_messages_ne _ _ (Option.some.inj h)

/-- Witness for C8: a failing block refresh against a failing manifest
refresh, both with the same underlying error. -/
theorem Refresh_error_messages_witness :
    ((blockFailRepo (GoError.collab 1 "boom")).Refresh ⟨false⟩ w0).1.map GoError.Error ≠
      ((manifestFailRepo (GoError.collab 1 "boom")).Refresh ⟨false⟩ w0).1.map GoError.Error :=
  Refresh_error_messages.2.2 Unit Unit (blockFailRepo (GoError.collab 1 "boom"))
    (manifestFailRepo (GoError.collab 1 "boom")) ⟨false⟩ ⟨false⟩ w0 w0
    (GoError.collab 1 "boom") (GoError.collab 1 "boom") rfl rfl rfl

/-! ## Periodic refresh loop -/

/-- Shape of the events one `Refresh` appends: the Blocks.Refresh call first,
then no further Blocks.Refresh and no collaborator call other than
Manifests.Refresh. -/
theorem Refresh_trace_shape {σ : Type} (r : Repository σ) (ctx : Context) (w : World σ) :
    ∃ post, (r.Refresh ctx w).2.trace = w.trace ++ Event.call Op.BlocksRefresh :: post ∧
      Event.call Op.BlocksRefresh ∉ post ∧
      ∀ op, Event.call op ∈ post → op = Op.ManifestsRefresh := by
  rcases hb : r.Blocks.Refresh ctx w.state with ⟨⟨changed, _ | e⟩, s1⟩
  · cases changed
    · exact ⟨[], by simp [Repository.Refresh, invoke, hb]⟩
    · rcases hm : r.Manifests.Refresh ctx s1 with ⟨_ | e, s2⟩
      · refine ⟨[Event.logPrintf "block index refreshed", Event.call Op.ManifestsRefresh,
          Event.logPrintf "manifests refreshed"], ?_, by decide, by simp⟩
        simp [Repository.Refresh, invoke, emit, hb, hm]
      · refine ⟨[Event.logPrintf "block index refreshed", Event.call Op.ManifestsRefresh],
          ?_, by decide, by simp⟩
        simp [Repository.Refresh, invoke, emit, hb, hm]
  · exact ⟨[], by simp [Repository.Refresh, invoke, hb]⟩

/-- A loop iteration that proceeds with the timer case keeps waiting and
appends the events of one `Refresh`, plus a warning when it failed. -/
theorem loopStep_timer {σ : Type} (r : Repository σ) (ev : SelectReady) (w : World σ)
    (h : selectCase ev = some SelectCase.timer) :
    ∃ w1 post, r.loopStep ev (LoopState.waiting, w) = (LoopState.waiting, w1) ∧
      w1.trace = w.trace ++ Event.call Op.BlocksRefresh :: post ∧
      Event.call Op.BlocksRefresh ∉ post ∧
      ∀ op, Event.call op ∈ post → op = Op.ManifestsRefresh := by
  obtain ⟨post, h1, h2, h3⟩ := Refresh_trace_shape r ⟨ev.doneReady⟩ w
  rcases hr : r.Refresh ⟨ev.doneReady⟩ w with ⟨_ | e, w1⟩
  · refine ⟨w1, post, by simp [Repository.loopStep, h, hr], ?_, h2, h3⟩
    simpa [hr] using h1
  · refine ⟨emit (Event.logWarn ("error refreshing repository: " ++ e.Error)) w1,
      post ++ [Event.logWarn ("error refreshing repository: " ++ e.Error)],
      by simp [Repository.loopStep, h, hr], ?_, ?_, ?_⟩
    · rw [hr] at h1
      simp only at h1
      simp [emit, h1]
    · simp [h2]
    · intro op hop
      simp at hop
      exact h3 op hop

/-- A loop iteration leaves the waiting state only through the Done case, and
then leaves the world untouched. -/
theorem loopStep_terminated_inv {σ : Type} (r : Repository σ) (ev : SelectReady)
    (w1 w2 : World σ)
    (h : r.loopStep ev (LoopState.waiting, w1) = (LoopState.terminated, w2)) :
    selectCase ev = some SelectCase.done ∧ w2 = w1 := by
  rcases hs : selectCase ev with _ | c
  · simp [Repository.loopStep, hs] at h
  · cases c
    · simp [Repository.loopStep, hs] at h
      exact ⟨rfl, h.symm⟩
    · obtain ⟨w3, post, h3, _⟩ := loopStep_timer r ev w1 hs
      rw [h3] at h
      simp at h

/-- The Done case is chosen only when `ctx.Done()` is closed. -/
theorem selectCase_done_ready (ev : SelectReady)
    (h : selectCase ev = some SelectCase.done) : ev.doneReady = true := by
  rcases ev with ⟨d, t, p⟩
  cases d <;> cases t <;> cases p <;> simp [selectCase] at h ⊢

/-- Once returned, further events change nothing. -/
theorem foldl_loopStep_terminated {σ : Type} (r : Repository σ) (evs : List SelectReady)
    (w : World σ) :
    evs.foldl (fun st ev => r.loopStep ev st) (LoopState.terminated, w) =
      (LoopState.terminated, w) := by
  induction evs with
  | nil => rfl
  | cons ev rest ih => simpa [List.foldl, Repository.loopStep] using ih

/-- Running the loop from any waiting world only appends events, and the
collaborator calls among them are Blocks.Refresh and Manifests.Refresh. -/
theorem foldl_loopStep_calls {σ : Type} (r : Repository σ) (evs : List SelectReady) :
    ∀ (st : LoopState) (w : World σ),
      ∃ delta, (evs.foldl (fun st ev => r.loopStep ev st) (st, w)).2.trace = w.trace ++ delta ∧
        ∀ op, Event.call op ∈ delta → op = Op.BlocksRefresh ∨ op = Op.ManifestsRefresh := by
  induction evs with
  | nil =>
    intro st w
    exact ⟨[], by simp⟩
  | cons ev rest ih =>
    intro st w
    cases st with
    | terminated =>
      refine ⟨[], ?_, by simp⟩
      simp only [List.foldl]
      have : r.loopStep ev (LoopState.terminated, w) = (LoopState.terminated, w) := rfl
      rw [this, foldl_loopStep_terminated]
      simp
    | waiting =>
      simp only [List.foldl]
      rcases hs : selectCase ev with _ | c
      · have : r.loopStep ev (LoopState.waiting, w) = (LoopState.waiting, w) := by
          simp [Repository.loopStep, hs]
        rw [this]
        exact ih _ w
      · cases c
        · have : r.loopStep ev (LoopState.waiting, w) = (LoopState.terminated, w) := by
            simp [Repository.loopStep, hs]
          rw [this]
          exact ih _ w
        · obtain ⟨w1, post, h1, h2, _, h4⟩ := loopStep_timer r ev w hs
          rw [h1]
          obtain ⟨delta, hd1, hd2⟩ := ih LoopState.waiting w1
          refine ⟨Event.call Op.BlocksRefresh :: post ++ delta, ?_, ?_⟩
          · rw [hd1, h2]
            simp
          · intro op hop
            simp at hop
            rcases hop with hop | hop | hop
            · exact Or.inl hop
            · exact Or.inr (h4 op hop)
            · exact hd2 op hop

/-- Ticks without cancellation: the loop keeps waiting and each tick adds
exactly one Blocks.Refresh call. -/
theorem foldl_loopStep_ticks {σ : Type} (r : Repository σ) (evs : List SelectReady) :
    ∀ (w : World σ), (∀ ev ∈ evs, ev.doneReady = false ∧ ev.timerReady = true) →
      (evs.foldl (fun st ev => r.loopStep ev st) (LoopState.waiting, w)).1 =
          LoopState.waiting ∧
        (evs.foldl (fun st ev => r.loopStep ev st) (LoopState.waiting, w)).2.trace.count
            (Event.call Op.BlocksRefresh) =
          w.trace.count (Event.call Op.BlocksRefresh) + evs.length := by
  induction evs with
  | nil =>
    intro w _
    simp
  | cons ev rest ih =>
    intro w h
    have hev := h ev (List.mem_cons_self _ _)
    have hs : selectCase ev = some SelectCase.timer := by
      simp [selectCase, hev.1, hev.2]
    obtain ⟨w1, post, h1, h2, h3, _⟩ := loopStep_timer r ev w hs
    simp only [List.foldl]
    rw [h1]
    obtain ⟨ih1, ih2⟩ := ih w1 (fun e he => h e (List.mem_cons_of_mem _ he))
    refine ⟨ih1, ?_⟩
    rw [ih2, h2]
    simp [List.count_cons, List.count_eq_zero_of_not_mem h3]
    omega

/-- A blocked `select` has the Done channel open. -/
theorem selectCase_none_done (ev : SelectReady) (h : selectCase ev = none) :
    ev.doneReady = false := by
  rcases ev with ⟨d, t, p⟩
  cases d <;> cases t <;> cases p <;> simp [selectCase] at h ⊢

/-- A loop iteration that proceeds with the timer case keeps waiting and moves
the world by exactly one `Refresh` plus its warning. -/
theorem loopStep_timer_world {σ : Type} (r : Repository σ) (ev : SelectReady) (w : World σ)
    (h : selectCase ev = some SelectCase.timer) :
    r.loopStep ev (LoopState.waiting, w) =
      (LoopState.waiting, r.refreshWithWarning ⟨ev.doneReady⟩ w) := by
  rcases hr : r.Refresh ⟨ev.doneReady⟩ w with ⟨_ | e, w1⟩ <;>
    simp [Repository.loopStep, Repository.refreshWithWarning, h, hr]

/-- The world after a refresh with warning, read off the `Refresh` call it
contains. -/
theorem refreshWithWarning_eq {σ : Type} (r : Repository σ) (ctx : Context) (w : World σ) :
    r.refreshWithWarning ctx w =
      ⟨(r.Refresh ctx w).2.state,
        (r.Refresh ctx w).2.trace ++ (r.Refresh ctx w).1.toList.map
          (fun err => Event.logWarn ("error refreshing repository: " ++ err.Error))⟩ := by
  rcases hr : r.Refresh ctx w with ⟨_ | e, w1⟩ <;>
    simp [Repository.refreshWithWarning, emit, hr]

/-- Ticks without cancellation: the loop keeps waiting and its world is the
starting world moved by one refresh with warning per tick. -/
theorem foldl_loopStep_ticks_world {σ : Type} (r : Repository σ)
    (evs : List SelectReady) :
    ∀ (w : World σ), (∀ ev ∈ evs, ev.doneReady = false ∧ ev.timerReady = true) →
      evs.foldl (fun st ev => r.loopStep ev st) (LoopState.waiting, w) =
        (LoopState.waiting, (r.refreshWithWarning ⟨false⟩)^[evs.length] w) := by
  induction evs with
  | nil =>
    intro w _
    rfl
  | cons ev rest ih =>
    intro w h
    have hev := h ev (List.mem_cons_self _ _)
    have hs : selectCase ev = some SelectCase.timer := by
      simp [selectCase, hev.1, hev.2]
    simp only [List.foldl, List.length_cons, Function.iterate_succ_apply]
    rw [loopStep_timer_world r ev w hs, hev.1]
    exact ih _ (fun e he => h e (List.mem_cons_of_mem _ he))

/-- While no `select` proceeds with the timer case the loop does not touch the
world; it returns as soon as one event has the Done channel closed. -/
theorem foldl_loopStep_no_timer {σ : Type} (r : Repository σ) (evs : List SelectReady) :
    ∀ (w : World σ), (∀ ev ∈ evs, selectCase ev ≠ some SelectCase.timer) →
      evs.foldl (fun st ev => r.loopStep ev st) (LoopState.waiting, w) =
        (if evs.any (fun ev => ev.doneReady) then LoopState.terminated
          else LoopState.waiting, w) := by
  induction evs with
  | nil =>
    intro w _
    simp
  | cons ev rest ih =>
    intro w h
    have hev := h ev (List.mem_cons_self _ _)
    simp only [List.foldl]
    rcases hs : selectCase ev with _ | c
    · have hd := selectCase_none_done ev hs
      have : r.loopStep ev (LoopState.waiting, w) = (LoopState.waiting, w) := by
        simp [Repository.loopStep, hs]
      rw [this, ih w (fun e he => h e (List.mem_cons_of_mem _ he))]
      simp [hd]
    · cases c
      · have hd := selectCase_done_ready ev hs
        have : r.loopStep ev (LoopState.waiting, w) = (LoopState.terminated, w) := by
          simp [Repository.loopStep, hs]
        rw [this, foldl_loopStep_terminated]
        simp [hd]
      · exact absurd hs hev

/-- C5: for every repository (also one whose every `Refresh` fails) and every
sequence of `n` timer ticks without cancellation, `RefreshPeriodically` is
still waiting and its world is the starting world after exactly `n` successive
`Refresh` calls, each followed by a warning line when it failed; so the trace
holds `n` more Blocks.Refresh calls. A step that takes the timer case always
stays waiting, whatever `Refresh` returns, and a step that reaches the
terminated state has the Done channel closed. -/
theorem RefreshPeriodically_ticks_keep_waiting {σ : Type} (r : Repository σ)
    (w : World σ) (evs : List SelectReady)
    (hticks : ∀ ev ∈ evs, ev.doneReady = false ∧ ev.timerReady = true) :
    r.RefreshPeriodically evs w =
      (LoopState.waiting, (r.refreshWithWarning ⟨false⟩)^[evs.length] w) ∧
    (∀ (ctx : Context) (w1 : World σ),
      r.refreshWithWarning ctx w1 =
        ⟨(r.Refresh ctx w1).2.state,
          (r.Refresh ctx w1).2.trace ++ (r.Refresh ctx w1).1.toList.map
            (fun err => Event.logWarn ("error refreshing repository: " ++ err.Error))⟩) ∧
    (r.RefreshPeriodically evs w).2.trace.count (Event.call Op.BlocksRefresh) =
      w.trace.count (Event.call Op.BlocksRefresh) + evs.length ∧
    (∀ (ev : SelectReady) (w1 : World σ), selectCase ev = some SelectCase.timer →
      r.loopStep ev (LoopState.waiting, w1) =
        (LoopState.waiting, r.refreshWithWarning ⟨ev.doneReady⟩ w1)) ∧
    (∀ (ev : SelectReady) (w1 w2 : World σ),
      r.loopStep ev (LoopState.waiting, w1) = (LoopState.terminated, w2) →
      ev.doneReady = true) := by
  refine ⟨foldl_loopStep_ticks_world r evs w hticks, refreshWithWarning_eq r,
    (foldl_loopStep_ticks r evs w hticks).2, ?_, ?_⟩
  · intro ev w1 hs
    exact loopStep_timer_world r ev w1 hs
  · intro ev w1 w2 h
    exact selectCase_done_ready ev (loopStep_terminated_inv r ev w1 w2 h).1

/-- Witness for C5: three ticks against a repository whose block refresh
always fails. -/
theorem RefreshPeriodically_ticks_keep_waiting_witness :
    (blockFailRepo (GoError.collab 1 "boom")).RefreshPeriodically
        [⟨false, true, false⟩, ⟨false, true, true⟩, ⟨false, true, false⟩] w0 =
      (LoopState.waiting,
        ((blockFailRepo (GoError.collab 1 "boom")).refreshWithWarning ⟨false⟩)^[3] w0) ∧
    ((blockFailRepo (GoError.collab 1 "boom")).RefreshPeriodically
        [⟨false, true, false⟩, ⟨false, true, true⟩, ⟨false, true, false⟩] w0).2.trace.count
        (Event.call Op.BlocksRefresh) = 3 :=
  ⟨(RefreshPeriodically_ticks_keep_waiting (blockFailRepo (GoError.collab 1 "boom")) w0
      [⟨false, true, false⟩, ⟨false, true, true⟩, ⟨false, true, false⟩]
      (by decide)).1,
    (RefreshPeriodically_ticks_keep_waiting (blockFailRepo (GoError.collab 1 "boom")) w0
      [⟨false, true, false⟩, ⟨false, true, true⟩, ⟨false, true, false⟩]
      (by decide)).2.2.1⟩

/-- C6, as stated, fails: with the Done channel closed and the timer channel
ready at the same `select`, the runtime may choose the timer case; the loop
then invokes `Refresh` and keeps waiting instead of returning. -/
theorem cancel_wins_race_counterexample :
    (⟨true, true, false⟩ : SelectReady).doneReady = true ∧
    (⟨true, true, false⟩ : SelectReady).timerReady = true ∧
    (okRepo false).loopStep ⟨true, true, false⟩ (LoopState.waiting, w0) =
      (LoopState.waiting, ⟨(), [Event.call Op.BlocksRefresh]⟩) := by
  refine ⟨rfl, rfl, ?_⟩
  simp [Repository.loopStep, selectCase, Repository.Refresh, invoke, okRepo, w0]

/-- C6, amended: in a loop iteration where both the Done channel and the timer
channel are ready at the `select` and the runtime's choice among the ready
cases is the Done case, the loop returns with the world untouched, so `Refresh`
is not invoked. -/
theorem loopStep_both_ready {σ : Type} (r : Repository σ) (ev : SelectReady) (w : World σ)
    (hd : ev.doneReady = true) (ht : ev.timerReady = true) (hp : ev.pickDone = true) :
    r.loopStep ev (LoopState.waiting, w) = (LoopState.terminated, w) := by
  simp [Repository.loopStep, selectCase, hd, ht, hp]

/-- Witness for amended C6: the race on a concrete repository, Done chosen. -/
theorem loopStep_both_ready_witness :
    (okRepo true).loopStep ⟨true, true, true⟩ (LoopState.waiting, w0) =
      (LoopState.terminated, w0) :=
  loopStep_both_ready (okRepo true) ⟨true, true, true⟩ w0 rfl rfl rfl

/-- C7, as stated, fails: with the context cancelled before the call (Done
closed at every `select`) and the timer ready at once, the first `select` may
take the timer case; the run returns at the second `select` after one `Refresh`
call, not zero. -/
theorem cancel_before_tick_counterexample :
    (∀ ev ∈ [(⟨true, true, false⟩ : SelectReady), ⟨true, true, true⟩],
      ev.doneReady = true) ∧
    (okRepo false).RefreshPeriodically [⟨true, true, false⟩, ⟨true, true, true⟩] w0 =
      (LoopState.terminated, ((okRepo false).Refresh ⟨true⟩ w0).2) ∧
    ((okRepo false).Refresh ⟨true⟩ w0).2.trace = [Event.call Op.BlocksRefresh] := by
  refine ⟨by decide, ?_, ?_⟩ <;>
    simp [Repository.RefreshPeriodically, Repository.loopStep, selectCase,
      Repository.Refresh, invoke, okRepo, w0]

/-- C7, amended: if the Done channel closes and no `select` of the run proceeds
with the timer case, `RefreshPeriodically` returns with the world untouched
(zero `Refresh` calls); in every run the step that observes cancellation
changes neither the trace nor the collaborator state; every collaborator call
`RefreshPeriodically` appends is Blocks.Refresh or Manifests.Refresh; and each
step either leaves the world as it is or moves it by one `Refresh` with its
warning. -/
theorem RefreshPeriodically_cancel_no_calls {σ : Type} (r : Repository σ) (w : World σ) :
    (∀ evs : List SelectReady, (∀ ev ∈ evs, selectCase ev ≠ some SelectCase.timer) →
      (∃ ev ∈ evs, ev.doneReady = true) →
      r.RefreshPeriodically evs w = (LoopState.terminated, w)) ∧
    (∀ (ev : SelectReady) (w1 w2 : World σ),
      r.loopStep ev (LoopState.waiting, w1) = (LoopState.terminated, w2) → w2 = w1) ∧
    (∀ evs : List SelectReady, ∃ delta,
      (r.RefreshPeriodically evs w).2.trace = w.trace ++ delta ∧
      ∀ op, Event.call op ∈ delta → op = Op.BlocksRefresh ∨ op = Op.ManifestsRefresh) ∧
    (∀ (ev : SelectReady) (st : LoopState) (w1 : World σ),
      (r.loopStep ev (st, w1)).2 = w1 ∨
      (r.loopStep ev (st, w1)).2 = r.refreshWithWarning ⟨ev.doneReady⟩ w1) := by
  refine ⟨?_, ?_, ?_, ?_⟩
  · intro evs hno hdone
    have hany : evs.any (fun ev => ev.doneReady) = true := by
      obtain ⟨ev, hev, hd⟩ := hdone
      exact List.any_eq_true.mpr ⟨ev, hev, hd⟩
    unfold Repository.RefreshPeriodically
    rw [foldl_loopStep_no_timer r evs w hno, hany]
    simp
  · intro ev w1 w2 h
    exact (loopStep_terminated_inv r ev w1 w2 h).2
  · intro evs
    exact foldl_loopStep_calls r evs LoopState.waiting w
  · intro ev st w1
    cases st with
    | terminated => exact Or.inl rfl
    | waiting =>
      rcases hs : selectCase ev with _ | c
      · exact Or.inl (by simp [Repository.loopStep, hs])
      · cases c
        · exact Or.inl (by simp [Repository.loopStep, hs])
        · exact Or.inr (by rw [loopStep_timer_world r ev w1 hs])

/-- Witness for amended C7: the select stays blocked once, then finds Done and
the timer both ready and takes the Done case. -/
theorem RefreshPeriodically_cancel_no_calls_witness :
    (okRepo true).RefreshPeriodically [⟨false, false, false⟩, ⟨true, true, true⟩] w0 =
      (LoopState.terminated, w0) :=
  (RefreshPeriodically_cancel_no_calls (okRepo true) w0).1
    [⟨false, false, false⟩, ⟨true, true, true⟩] (by decide) (by decide)

end Repo
